import Mathlib

/-
Verification of the mycroft-core speech-client listening loop.

Shallow embedding of:
  - mycroft/client/speech/recognizer.py  (ResponsiveRecognizer: the adaptive
    energy threshold of _wait_until_wake_word, the phrase recording loop
    _record_phrase, and the listen orchestration),
  - mycroft/client/speech/mic.py         (MutableStream.read),
  - mycroft/client/speech/hotword_factory.py (PreciseHotword.found_wake_word).

Python floats are modelled as rationals; the external audioop.rms function is
taken as an opaque parameter (a function from chunk bytes to a rational
loudness score); the external wake-word engine, the button-press signal and
the disk-persistence side effects are modelled as explicit parameters
(per-iteration boolean sources and Except-valued save outcomes).
-/

namespace Mycroft

/-- One audio chunk: the raw bytes/samples read from the device. -/
abbrev Chunk := List Int

/-- Python int() on a nonnegative rational: truncation toward zero. -/
def pyIntNat (q : ℚ) : ℕ := (q.num / (q.den : ℤ)).toNat

/-- recognizer.py: self.sec_per_buffer = 0.064 -/
def sec_per_buffer : ℚ := 64 / 1000

/-- recognizer.py: self.min_rms_threshold = 1 -/
def min_rms_threshold : ℚ := 1

/-- recognizer.py: self.max_rms_threshold = 40 -/
def max_rms_threshold : ℚ := 40

/-- recognizer.py: self.min_loud_sec_per_phrase = 0.5 -/
def min_loud_sec_per_phrase : ℚ := 1 / 2

/-- recognizer.py: self.min_loud_chunks = int(min_loud_sec_per_phrase / sec_per_buffer) -/
def min_loud_chunks : ℕ := pyIntNat (min_loud_sec_per_phrase / sec_per_buffer)

/-- recognizer.py: self.min_silent_sec_after_phrase = 0.25 -/
def min_silent_sec_after_phrase : ℚ := 1 / 4

/-- recognizer.py: self.min_silent_chunks = int(min_silent_sec_after_phrase / sec_per_buffer) -/
def min_silent_chunks : ℕ := pyIntNat (min_silent_sec_after_phrase / sec_per_buffer)

/-- recognizer.py: self.max_loud_chunks = int(recording_timeout / sec_per_buffer) -/
def max_loud_chunks (recording_timeout : ℚ) : ℕ :=
  pyIntNat (recording_timeout / sec_per_buffer)

/-- The mutable state touched by the adaptive-threshold code of
_wait_until_wake_word: self.dynamic_energy_threshold and the local
skipped_frames counter. -/
structure WaitState where
  threshold : ℚ
  skipped : ℕ
  deriving DecidableEq, Repr

/-- recognizer.py lines 99-110, one chunk of the waiting phase, given the
rms value r of the chunk just read:

    if audioop.rms(chunk, width) > self.dynamic_energy_threshold:
        self.dynamic_energy_threshold =
            min(self.dynamic_energy_threshold*1.001, self.max_rms_threshold)
        skipped_frames = 0
    else:
        skipped_frames += 1
        if skipped_frames > 100:
            self.dynamic_energy_threshold =
                max(self.dynamic_energy_threshold*0.99, self.min_rms_threshold)
            skipped_frames = 0
-/
def waitAdaptStep (r : ℚ) (ws : WaitState) : WaitState :=
  if r > ws.threshold then
    { threshold := min (ws.threshold * (1001 / 1000)) max_rms_threshold, skipped := 0 }
  else
    if 100 < ws.skipped + 1 then
      { threshold := max (ws.threshold * (99 / 100)) min_rms_threshold, skipped := 0 }
    else
      { ws with skipped := ws.skipped + 1 }

/-- Process a sequence of chunk rms values through the waiting-phase
threshold adaptation. -/
def waitRun (rs : List ℚ) (ws : WaitState) : WaitState :=
  rs.foldl (fun s r => waitAdaptStep r s) ws

/-- Every chunk in the sequence is classified loud against the threshold
current when it arrives (the comparison of recognizer.py line 100). -/
def allLoudAlong : List ℚ → WaitState → Bool
  | [], _ => true
  | r :: rest, ws => (decide (r > ws.threshold)) && allLoudAlong rest (waitAdaptStep r ws)

/-- Python deque(maxlen=cap): appending to a full deque evicts the oldest
element. -/
def dequeAppend (cap : ℕ) (l : List Chunk) (x : Chunk) : List Chunk :=
  let l2 := l ++ [x]
  if cap < l2.length then l2.drop (l2.length - cap) else l2

/-- The local state of the _record_phrase loop (recognizer.py lines 131-134)
together with self.dynamic_energy_threshold, which the loop reads but never
writes.  phraseComplete is a ghost flag recording that the loop exited
through the loud-and-silent break of lines 150-151. -/
structure RecPhraseState where
  threshold : ℚ
  numChunks : ℕ
  numLoudChunks : ℕ
  numSilentChunks : ℕ
  allChunks : List Chunk
  phraseComplete : Bool
  deriving DecidableEq, Repr

/-- recognizer.py lines 136-146, the body of one iteration of the
_record_phrase loop before the break checks: read a chunk, append it to
all_chunks, and classify it against dynamic_energy_threshold * 1.1. -/
def recordChunk (rms : Chunk → ℚ) (maxLoud : ℕ) (stream : ℕ → Chunk)
    (st : RecPhraseState) : RecPhraseState :=
  let chunk := stream st.numChunks
  let st1 := { st with numChunks := st.numChunks + 1,
                       allChunks := dequeAppend maxLoud st.allChunks chunk }
  if rms chunk > st.threshold * (11 / 10) then
    { st1 with numLoudChunks := st1.numLoudChunks + 1, numSilentChunks := 0 }
  else
    { st1 with numSilentChunks := st1.numSilentChunks + 1 }

/-- recognizer.py lines 135-154, the while loop of _record_phrase:

    while num_chunks < self.max_loud_chunks:
        ...body (recordChunk)...
        if num_loud_chunks > self.max_loud_chunks: break
        if num_loud_chunks > self.min_loud_chunks and
           num_silent_chunks > self.min_silent_chunks: break
        if check_for_signal(buttonPress): break

The fuel argument bounds the iteration count; record_phrase below supplies
fuel max_loud_chunks, which the loop guard makes sufficient. -/
def recordGo (rms : Chunk → ℚ) (maxLoud minLoud minSilent : ℕ)
    (stream : ℕ → Chunk) (button : ℕ → Bool) : ℕ → RecPhraseState → RecPhraseState
  | 0, st => st
  | fuel + 1, st =>
    if st.numChunks < maxLoud then
      let st2 := recordChunk rms maxLoud stream st
      if maxLoud < st2.numLoudChunks then st2
      else if minLoud < st2.numLoudChunks ∧ minSilent < st2.numSilentChunks then
        { st2 with phraseComplete := true }
      else if button st.numChunks then st2
      else recordGo rms maxLoud minLoud minSilent stream button fuel st2
    else st

/-- recognizer.py _record_phrase: run the loop from the zero-initialised
counters and the current dynamic_energy_threshold; the returned audio is
(record_phrase ...).allChunks.flatten, mirroring b"".join(all_chunks). -/
def record_phrase (rms : Chunk → ℚ) (threshold : ℚ) (maxLoud minLoud minSilent : ℕ)
    (stream : ℕ → Chunk) (button : ℕ → Bool) : RecPhraseState :=
  recordGo rms maxLoud minLoud minSilent stream button maxLoud
    { threshold := threshold, numChunks := 0, numLoudChunks := 0,
      numSilentChunks := 0, allChunks := [], phraseComplete := false }

/-- The state of the _record_phrase loop after c chunks of the stream have
been read, with the loud counter at l and the trailing-silence counter at
s, and the loop not yet ended by the completion break. -/
def recStateAt (threshold : ℚ) (stream : ℕ → Chunk) (c l s : ℕ) : RecPhraseState :=
  { threshold := threshold, numChunks := c, numLoudChunks := l,
    numSilentChunks := s, allChunks := (List.range c).map stream,
    phraseComplete := false }

/-- mic.py line 48: self.muted_buffer = b''.join([b'\x00' * self.SAMPLE_WIDTH]) -/
def mutedBuffer (sampleWidth : ℕ) : List ℕ := List.replicate sampleWidth 0

/-- mic.py lines 78-101, the read loop of MutableStream.read.  The device
is modelled by three per-iteration observations: mutedAt i (the muted flag
when iteration i tests it), availAt i (get_read_available at iteration i)
and dataAt i n (the n bytes wrapped_stream.read returns at iteration i).
The fuel argument bounds the number of loop iterations, each of which is
either a sleep-and-retry or a partial read; none models a call still
blocked after fuel iterations.

    frames = deque(); remaining = size
    while remaining > 0:
        if self.muted: return self.muted_buffer
        to_read = min(self.wrapped_stream.get_read_available(), remaining)
        if to_read <= 0: sleep(.01); continue
        result = self.wrapped_stream.read(to_read, ...)
        frames.append(result); remaining -= to_read
    return b"".join(list(frames))
-/
def streamReadGo (mutedAt : ℕ → Bool) (availAt : ℕ → ℕ) (dataAt : ℕ → ℕ → List ℕ)
    (sampleWidth : ℕ) : ℕ → List (List ℕ) → ℕ → ℕ → Option (List ℕ)
  | 0, _, _, _ => none
  | fuel + 1, frames, remaining, i =>
    if 0 < remaining then
      if mutedAt i then some (mutedBuffer sampleWidth)
      else
        let toRead := min (availAt i) remaining
        if toRead ≤ 0 then
          streamReadGo mutedAt availAt dataAt sampleWidth fuel frames remaining (i + 1)
        else
          streamReadGo mutedAt availAt dataAt sampleWidth fuel
            (frames ++ [dataAt i toRead]) (remaining - toRead) (i + 1)
    else some frames.flatten

/-- mic.py MutableStream.read(size): run the read loop with empty frames
and remaining = size. -/
def mutableStreamRead (mutedAt : ℕ → Bool) (availAt : ℕ → ℕ) (dataAt : ℕ → ℕ → List ℕ)
    (sampleWidth : ℕ) (size : ℕ) (fuel : ℕ) : Option (List ℕ) :=
  streamReadGo mutedAt availAt dataAt sampleWidth fuel [] size 0

/-- The operations applied to PreciseHotword detection state: activate is
the on_activation callback of the runner (hotword_factory.py lines 41-42),
poll is a found_wake_word call. -/
inductive HotwordOp
  | activate
  | poll
  deriving DecidableEq, Repr

/-- hotword_factory.py lines 56-60:

    def found_wake_word(self):
        if self.has_found:
            self.has_found = False
            return True
        return False

Returns the call result and the new has_found flag. -/
def found_wake_word (hasFound : Bool) : Bool × Bool :=
  if hasFound then (true, false) else (false, hasFound)

/-- Run a sequence of activations and polls against the has_found flag,
collecting each poll call result (activations yield none). -/
def hotwordResults : List HotwordOp → Bool → List (Option Bool)
  | [], _ => []
  | HotwordOp.activate :: rest, _ => none :: hotwordResults rest true
  | HotwordOp.poll :: rest, h =>
      some (found_wake_word h).fst :: hotwordResults rest (found_wake_word h).snd

/-- The lifecycle events emitted on the recognizer_loop bus. -/
inductive Event
  | wakeword
  | record_begin
  | record_end
  deriving DecidableEq, Repr

/-- The ResponsiveRecognizer attributes read and written by listen and its
two phases (recognizer.py lines 46-47 and 66). -/
structure ListenerState where
  dynamicEnergyThreshold : ℚ
  stopSignaled : Bool
  listenTriggered : Bool
  deriving DecidableEq, Repr

/-- recognizer.py lines 84-126, _wait_until_wake_word.  stop and trig are
self._stop_signaled and self._listen_triggered (neither is written by the
loop); found i abstracts the result of wake_word_recognizer.found_wake_word()
at iteration i; rmss i is the rms of the chunk read at iteration i; the
threshold adaptation is waitAdaptStep; saveWW is the outcome of the
wake-word persistence block (lines 118-124), attempted only when
save_wake_words holds, whose failure propagates (the source has no handler).
Returns the final adaptation state and whether the wakeword event was
emitted; none models a loop still waiting after fuel chunks. -/
def waitGo (stop trig : Bool) (found : ℕ → Bool) (rmss : ℕ → ℚ)
    (saveWakeWords : Bool) (saveWW : Except String Unit) :
    ℕ → ℕ → WaitState → Option (Except String (WaitState × Bool))
  | 0, _, _ => none
  | fuel + 1, i, ws =>
    if stop then some (Except.ok (ws, false))
    else
      let ws2 := waitAdaptStep (rmss i) ws
      if found i || trig then
        if saveWakeWords then
          match saveWW with
          | Except.error e => some (Except.error e)
          | Except.ok _ => some (Except.ok (ws2, true))
        else some (Except.ok (ws2, true))
      else waitGo stop trig found rmss saveWakeWords saveWW fuel (i + 1) ws2

/-- recognizer.py lines 157-182, listen: wait for the wake word, then if not
stopped emit record_begin, record the phrase, emit record_end, optionally
persist the utterance (lines 176-180, whose failure propagates: the source
has no handler), and return the audio.  The result carries the final
recognizer state, the emitted events in order, and the recorded bytes
(none when the loop exited on the stop signal).  Note the source never
clears self._listen_triggered. -/
def listen (found : ℕ → Bool) (rmss : ℕ → ℚ) (rms : Chunk → ℚ) (chunks : ℕ → Chunk)
    (button : ℕ → Bool) (maxLoud minLoud minSilent : ℕ)
    (saveWakeWords saveUtterances : Bool) (saveWW saveUtt : Except String Unit)
    (fuel : ℕ) (st : ListenerState) :
    Option (Except String (ListenerState × List Event × Option (List Int))) :=
  match waitGo st.stopSignaled st.listenTriggered found rmss saveWakeWords saveWW
      fuel 0 ⟨st.dynamicEnergyThreshold, 0⟩ with
  | none => none
  | some (Except.error e) => some (Except.error e)
  | some (Except.ok (ws, detected)) =>
    let st1 : ListenerState := { st with dynamicEnergyThreshold := ws.threshold }
    let evts1 := if detected then [Event.wakeword] else []
    if st1.stopSignaled then some (Except.ok (st1, evts1, none))
    else
      let final := record_phrase rms st1.dynamicEnergyThreshold maxLoud minLoud
        minSilent chunks button
      let buffer := final.allChunks.flatten
      let evts2 := evts1 ++ [Event.record_begin, Event.record_end]
      if saveUtterances then
        match saveUtt with
        | Except.error e => some (Except.error e)
        | Except.ok _ => some (Except.ok (st1, evts2, some buffer))
      else some (Except.ok (st1, evts2, some buffer))

lemma waitRun_nil (ws : WaitState) : waitRun [] ws = ws := rfl

lemma waitRun_cons (r : ℚ) (rs : List ℚ) (ws : WaitState) :
    waitRun (r :: rs) ws = waitRun rs (waitAdaptStep r ws) := rfl

lemma waitAdaptStep_loud (r : ℚ) (ws : WaitState) (h : r > ws.threshold) :
    waitAdaptStep r ws =
      { threshold := min (ws.threshold * (1001 / 1000)) max_rms_threshold, skipped := 0 } := by
  simp [waitAdaptStep, h]

lemma waitAdaptStep_loud_mono (r : ℚ) (ws : WaitState) (h : r > ws.threshold)
    (h0 : 0 ≤ ws.threshold) (hc : ws.threshold ≤ max_rms_threshold) :
    ws.threshold ≤ (waitAdaptStep r ws).threshold ∧
      (waitAdaptStep r ws).threshold ≤ max_rms_threshold ∧
      0 ≤ (waitAdaptStep r ws).threshold := by
  rw [waitAdaptStep_loud r ws h]
  refine ⟨le_min (by nlinarith) hc, min_le_right _ _,
    le_min (by nlinarith) (by norm_num [max_rms_threshold])⟩

lemma c4core : ∀ (rs : List ℚ) (ws : WaitState), allLoudAlong rs ws = true →
    0 ≤ ws.threshold → ws.threshold ≤ max_rms_threshold →
    (∀ i, i < rs.length →
      (waitRun (rs.take i) ws).threshold ≤ (waitRun (rs.take (i + 1)) ws).threshold) ∧
    (∀ i, (waitRun (rs.take i) ws).threshold ≤ max_rms_threshold)
  | [], ws, _, _, hc => by
      refine ⟨fun i hi => absurd hi (by simp), fun i => by simpa [waitRun] using hc⟩
  | r :: rest, ws, hall, h0, hc => by
      rw [allLoudAlong, Bool.and_eq_true, decide_eq_true_eq] at hall
      obtain ⟨hr, hrest⟩ := hall
      obtain ⟨hmono, hceil, hpos⟩ := waitAdaptStep_loud_mono r ws hr h0 hc
      obtain ⟨ih1, ih2⟩ := c4core rest (waitAdaptStep r ws) hrest hpos hceil
      constructor
      · intro i hi
        match i with
        | 0 => simpa [waitRun] using hmono
        | i + 1 =>
            have := ih1 i (by simpa using hi)
            simpa [List.take_succ_cons, waitRun_cons] using this
      · intro i
        match i with
        | 0 => simpa [waitRun] using hc
        | i + 1 =>
            have := ih2 i
            simpa [List.take_succ_cons, waitRun_cons] using this

/-- Claim C4: during the waiting phase, while consecutive loud chunks are
observed (each rms above the current threshold), the adaptive energy
threshold is monotonically non-decreasing from chunk to chunk, and after
every adaptation step it never exceeds max_rms_threshold. -/
theorem c4_threshold_monotone (rs : List ℚ) (ws : WaitState)
    (hall : allLoudAlong rs ws = true)
    (h0 : 0 ≤ ws.threshold) (hc : ws.threshold ≤ max_rms_threshold) :
    (∀ i, i < rs.length →
      (waitRun (rs.take i) ws).threshold ≤ (waitRun (rs.take (i + 1)) ws).threshold) ∧
    (∀ i, (waitRun (rs.take i) ws).threshold ≤ max_rms_threshold) :=
  c4core rs ws hall h0 hc

/-- Witness for C4 at a concrete input: two loud chunks starting from the
initial threshold 13. -/
theorem c4_threshold_monotone_witness :
    (∀ i, i < ([20, 20] : List ℚ).length →
      (waitRun (([20, 20] : List ℚ).take i) ⟨13, 0⟩).threshold ≤
        (waitRun (([20, 20] : List ℚ).take (i + 1)) ⟨13, 0⟩).threshold) ∧
    (∀ i, (waitRun (([20, 20] : List ℚ).take i) ⟨13, 0⟩).threshold ≤ max_rms_threshold) :=
  c4_threshold_monotone [20, 20] ⟨13, 0⟩
    (by norm_num [allLoudAlong, waitAdaptStep, max_rms_threshold]) (by norm_num)
    (by norm_num [max_rms_threshold])

lemma waitAdaptStep_floor (r : ℚ) (ws : WaitState)
    (h : min_rms_threshold ≤ ws.threshold) :
    min_rms_threshold ≤ (waitAdaptStep r ws).threshold := by
  have h1 : (1 : ℚ) ≤ ws.threshold := by simpa [min_rms_threshold] using h
  unfold waitAdaptStep
  split
  · exact le_min (by nlinarith [h1]) (by norm_num [min_rms_threshold, max_rms_threshold])
  · split
    · simp [min_rms_threshold]
    · exact h

lemma waitRun_floor : ∀ (rs : List ℚ) (ws : WaitState),
    min_rms_threshold ≤ ws.threshold → min_rms_threshold ≤ (waitRun rs ws).threshold
  | [], ws, h => h
  | r :: rest, ws, h => by
      rw [waitRun_cons]
      exact waitRun_floor rest (waitAdaptStep r ws) (waitAdaptStep_floor r ws h)

lemma c5core : ∀ (rs : List ℚ) (ws : WaitState),
    (∀ r ∈ rs, ¬ (r > ws.threshold)) → ws.skipped + rs.length ≤ 100 →
    waitRun rs ws = ⟨ws.threshold, ws.skipped + rs.length⟩
  | [], ws, _, _ => rfl
  | r :: rest, ws, hq, hlen => by
      have hr : ¬ (r > ws.threshold) := hq r (List.mem_cons_self r rest)
      have hsk : ¬ (100 < ws.skipped + 1) := by
        simp only [List.length_cons] at hlen
        omega
      have hstep : waitAdaptStep r ws = ⟨ws.threshold, ws.skipped + 1⟩ := by
        simp [waitAdaptStep, hr, hsk]
      rw [waitRun_cons, hstep]
      have := c5core rest ⟨ws.threshold, ws.skipped + 1⟩
        (by intro x hx; exact hq x (List.mem_cons_of_mem r hx))
        (by simp only [List.length_cons] at hlen; simp; omega)
      rw [this]
      simp only [List.length_cons]
      congr 1
      omega

/-- Claim C5: starting from a state whose quiet streak is zero (just after a
loud chunk or a decay), running at most 100 consecutive quiet chunks leaves
the threshold exactly unchanged (no decay before the streak strictly
exceeds 100), and from a state at or above the floor, no sequence of chunks
ever drives the threshold below min_rms_threshold. -/
theorem c5_no_early_decay (rs : List ℚ) (ws : WaitState)
    (hsk : ws.skipped = 0)
    (hq : ∀ r ∈ rs, ¬ (r > ws.threshold))
    (hlen : rs.length ≤ 100)
    (hfl : min_rms_threshold ≤ ws.threshold) :
    (waitRun rs ws).threshold = ws.threshold ∧
      ∀ rs2 : List ℚ, min_rms_threshold ≤ (waitRun rs2 ws).threshold := by
  constructor
  · have := c5core rs ws hq (by omega)
    rw [this]
  · intro rs2
    exact waitRun_floor rs2 ws hfl

/-- Witness for C5 at a concrete input: three quiet chunks from the initial
threshold 13 with a fresh quiet streak. -/
theorem c5_no_early_decay_witness :
    (waitRun ([0, 0, 0] : List ℚ) ⟨13, 0⟩).threshold = (⟨13, 0⟩ : WaitState).threshold ∧
      ∀ rs2 : List ℚ, min_rms_threshold ≤ (waitRun rs2 (⟨13, 0⟩ : WaitState)).threshold :=
  c5_no_early_decay [0, 0, 0] ⟨13, 0⟩ rfl
    (by intro r hr; simp only [List.mem_cons, List.not_mem_nil, or_false] at hr
        rcases hr with h | h | h <;> subst h <;> norm_num)
    (by norm_num) (by norm_num [min_rms_threshold])

lemma recordChunk_threshold (rms : Chunk → ℚ) (maxLoud : ℕ) (stream : ℕ → Chunk)
    (st : RecPhraseState) : (recordChunk rms maxLoud stream st).threshold = st.threshold := by
  unfold recordChunk
  dsimp only
  split <;> rfl

lemma recordGo_threshold (rms : Chunk → ℚ) (maxLoud minLoud minSilent : ℕ)
    (stream : ℕ → Chunk) (button : ℕ → Bool) :
    ∀ (fuel : ℕ) (st : RecPhraseState),
      (recordGo rms maxLoud minLoud minSilent stream button fuel st).threshold = st.threshold
  | 0, st => rfl
  | fuel + 1, st => by
      rw [recordGo]
      dsimp only
      split
      · split_ifs with h1 h2 h3
        · exact recordChunk_threshold rms maxLoud stream st
        · exact recordChunk_threshold rms maxLoud stream st
        · exact recordChunk_threshold rms maxLoud stream st
        · rw [recordGo_threshold rms maxLoud minLoud minSilent stream button fuel _]
          exact recordChunk_threshold rms maxLoud stream st
      · rfl

/-- Claim C10: _record_phrase never mutates the adaptive energy threshold:
the dynamic_energy_threshold field of the state it returns equals the value
it was entered with, for every stream, button sequence and configuration. -/
theorem c10_record_phrase_threshold_frame (rms : Chunk → ℚ) (threshold : ℚ)
    (maxLoud minLoud minSilent : ℕ) (stream : ℕ → Chunk) (button : ℕ → Bool) :
    (record_phrase rms threshold maxLoud minLoud minSilent stream button).threshold
      = threshold := by
  unfold record_phrase
  rw [recordGo_threshold]

lemma dequeAppend_range (cap : ℕ) (stream : ℕ → Chunk) (c : ℕ) (h : c + 1 ≤ cap) :
    dequeAppend cap ((List.range c).map stream) (stream c) = (List.range (c + 1)).map stream := by
  have hnot : ¬ cap < ((List.range c).map stream ++ [stream c]).length := by
    simp only [List.length_append, List.length_map, List.length_range, List.length_cons,
      List.length_nil]
    omega
  simp only [dequeAppend, if_neg hnot]
  rw [List.range_succ, List.map_append]
  simp

lemma recordChunk_loud (rms : Chunk → ℚ) (maxLoud : ℕ) (stream : ℕ → Chunk)
    (t : ℚ) (c l s : ℕ) (hc : c + 1 ≤ maxLoud)
    (hl : rms (stream c) > t * (11 / 10)) :
    recordChunk rms maxLoud stream (recStateAt t stream c l s)
      = recStateAt t stream (c + 1) (l + 1) 0 := by
  unfold recordChunk recStateAt
  dsimp only
  rw [if_pos hl, dequeAppend_range maxLoud stream c hc]

lemma recordChunk_quiet (rms : Chunk → ℚ) (maxLoud : ℕ) (stream : ℕ → Chunk)
    (t : ℚ) (c l s : ℕ) (hc : c + 1 ≤ maxLoud)
    (hq : ¬ (rms (stream c) > t * (11 / 10))) :
    recordChunk rms maxLoud stream (recStateAt t stream c l s)
      = recStateAt t stream (c + 1) l (s + 1) := by
  unfold recordChunk recStateAt
  dsimp only
  rw [if_neg hq, dequeAppend_range maxLoud stream c hc]

lemma recordGo_exit (rms : Chunk → ℚ) (maxLoud minLoud minSilent : ℕ)
    (stream : ℕ → Chunk) (button : ℕ → Bool) (fuel : ℕ) (st : RecPhraseState)
    (h : ¬ st.numChunks < maxLoud) :
    recordGo rms maxLoud minLoud minSilent stream button fuel st = st := by
  cases fuel
  · rfl
  · rw [recordGo]
    dsimp only
    rw [if_neg h]

lemma recordGo_step_cont (rms : Chunk → ℚ) (maxLoud minLoud minSilent : ℕ)
    (stream : ℕ → Chunk) (button : ℕ → Bool) (fuel : ℕ) (st : RecPhraseState)
    (hguard : st.numChunks < maxLoud)
    (hnb1 : ¬ maxLoud < (recordChunk rms maxLoud stream st).numLoudChunks)
    (hnb2 : ¬ (minLoud < (recordChunk rms maxLoud stream st).numLoudChunks ∧
        minSilent < (recordChunk rms maxLoud stream st).numSilentChunks))
    (hnb3 : button st.numChunks = false) :
    recordGo rms maxLoud minLoud minSilent stream button (fuel + 1) st
      = recordGo rms maxLoud minLoud minSilent stream button fuel
          (recordChunk rms maxLoud stream st) := by
  rw [recordGo]
  dsimp only
  rw [if_pos hguard, if_neg hnb1, if_neg hnb2, if_neg (by simp [hnb3])]

lemma recordGo_step_complete (rms : Chunk → ℚ) (maxLoud minLoud minSilent : ℕ)
    (stream : ℕ → Chunk) (button : ℕ → Bool) (fuel : ℕ) (st : RecPhraseState)
    (hguard : st.numChunks < maxLoud)
    (hnb1 : ¬ maxLoud < (recordChunk rms maxLoud stream st).numLoudChunks)
    (hbrk : minLoud < (recordChunk rms maxLoud stream st).numLoudChunks ∧
        minSilent < (recordChunk rms maxLoud stream st).numSilentChunks) :
    recordGo rms maxLoud minLoud minSilent stream button (fuel + 1) st
      = { recordChunk rms maxLoud stream st with phraseComplete := true } := by
  rw [recordGo]
  dsimp only
  rw [if_pos hguard, if_neg hnb1, if_pos hbrk]

lemma recordGo_loud_run (rms : Chunk → ℚ) (maxLoud minLoud minSilent : ℕ)
    (stream : ℕ → Chunk) (button : ℕ → Bool) (t : ℚ)
    (hb : ∀ i, button i = false) :
    ∀ (k fuel : ℕ), (∀ i, i < k → rms (stream i) > t * (11 / 10)) →
      k ≤ maxLoud → k ≤ fuel →
      recordGo rms maxLoud minLoud minSilent stream button fuel (recStateAt t stream 0 0 0)
        = recordGo rms maxLoud minLoud minSilent stream button (fuel - k)
            (recStateAt t stream k k 0) := by
  intro k
  induction k with
  | zero => intro fuel _ _ _; rw [Nat.sub_zero]
  | succ k ih =>
      intro fuel hl hk hf
      rw [ih fuel (fun i hi => hl i (Nat.lt_succ_of_lt hi)) (by omega) (by omega)]
      have hchunk := recordChunk_loud rms maxLoud stream t k k 0 hk (hl k (Nat.lt_succ_self k))
      have hfk : fuel - k = (fuel - (k + 1)) + 1 := by omega
      rw [hfk, recordGo_step_cont rms maxLoud minLoud minSilent stream button
        (fuel - (k + 1)) (recStateAt t stream k k 0)
        (by simp only [recStateAt]; omega)
        (by rw [hchunk]; simp only [recStateAt]; omega)
        (by rw [hchunk]; simp [recStateAt])
        (hb k), hchunk]

lemma recordGo_quiet_run (rms : Chunk → ℚ) (maxLoud minLoud minSilent : ℕ)
    (stream : ℕ → Chunk) (button : ℕ → Bool) (t : ℚ) (n : ℕ)
    (hb : ∀ i, button i = false)
    (hq : ∀ i, n ≤ i → ¬ (rms (stream i) > t * (11 / 10))) :
    ∀ (j fuel : ℕ), n + j ≤ maxLoud → j ≤ fuel →
      (∀ j2, 1 ≤ j2 → j2 ≤ j → ¬ (minLoud < n ∧ minSilent < j2)) →
      recordGo rms maxLoud minLoud minSilent stream button fuel (recStateAt t stream n n 0)
        = recordGo rms maxLoud minLoud minSilent stream button (fuel - j)
            (recStateAt t stream (n + j) n j) := by
  intro j
  induction j with
  | zero => intro fuel _ _ _; rw [Nat.sub_zero, Nat.add_zero]
  | succ j ih =>
      intro fuel hj hf hno
      rw [ih fuel (by omega) (by omega) (fun j2 h1 h2 => hno j2 h1 (by omega))]
      have hchunk := recordChunk_quiet rms maxLoud stream t (n + j) n j (by omega)
        (hq (n + j) (by omega))
      have hfj : fuel - j = (fuel - (j + 1)) + 1 := by omega
      rw [hfj, recordGo_step_cont rms maxLoud minLoud minSilent stream button
        (fuel - (j + 1)) (recStateAt t stream (n + j) n j)
        (by simp only [recStateAt]; omega)
        (by rw [hchunk]; simp only [recStateAt]; omega)
        (by rw [hchunk]; simp only [recStateAt]
            intro hand
            exact hno (j + 1) (by omega) (by omega) ⟨hand.1, hand.2⟩)
        (hb (n + j)), hchunk, Nat.add_assoc]

lemma record_phrase_init (rms : Chunk → ℚ) (t : ℚ) (maxLoud minLoud minSilent : ℕ)
    (stream : ℕ → Chunk) (button : ℕ → Bool) :
    record_phrase rms t maxLoud minLoud minSilent stream button
      = recordGo rms maxLoud minLoud minSilent stream button maxLoud
          (recStateAt t stream 0 0 0) := rfl

/-- Claim C2: when every chunk of the stream is classified loud, the
_record_phrase loop terminates after reading exactly max_loud_chunks
recording_timeout chunks (the hard timeout), and the collected buffer holds
each of those chunks exactly once, in arrival order. -/
theorem c2_hard_timeout (rms : Chunk → ℚ) (stream : ℕ → Chunk) (button : ℕ → Bool)
    (t : ℚ) (recording_timeout : ℚ)
    (hb : ∀ i, button i = false)
    (hl : ∀ i, rms (stream i) > t * (11 / 10)) :
    (record_phrase rms t (max_loud_chunks recording_timeout) min_loud_chunks
        min_silent_chunks stream button).numChunks = max_loud_chunks recording_timeout ∧
    (record_phrase rms t (max_loud_chunks recording_timeout) min_loud_chunks
        min_silent_chunks stream button).allChunks
      = (List.range (max_loud_chunks recording_timeout)).map stream := by
  have hrun := recordGo_loud_run rms (max_loud_chunks recording_timeout) min_loud_chunks
    min_silent_chunks stream button t hb (max_loud_chunks recording_timeout)
    (max_loud_chunks recording_timeout) (fun i _ => hl i) le_rfl le_rfl
  rw [record_phrase_init, hrun, Nat.sub_self]
  exact ⟨rfl, rfl⟩

/-- Witness for C2 at a concrete input: a constant loud stream with a 0.5s
recording timeout (7 chunks). -/
theorem c2_hard_timeout_witness :
    (record_phrase (fun c => if c.length = 0 then 0 else 100) 10
        (max_loud_chunks (1 / 2)) min_loud_chunks min_silent_chunks
        (fun _ => [1]) (fun _ => false)).numChunks = max_loud_chunks (1 / 2) ∧
    (record_phrase (fun c => if c.length = 0 then 0 else 100) 10
        (max_loud_chunks (1 / 2)) min_loud_chunks min_silent_chunks
        (fun _ => [1]) (fun _ => false)).allChunks
      = (List.range (max_loud_chunks (1 / 2))).map (fun _ => [1]) :=
  c2_hard_timeout (fun c => if c.length = 0 then 0 else 100) (fun _ => [1])
    (fun _ => false) 10 (1 / 2) (fun _ => rfl) (fun _ => by norm_num)

lemma min_loud_chunks_eq : min_loud_chunks = 7 := by
  norm_num [min_loud_chunks, pyIntNat, min_loud_sec_per_phrase, sec_per_buffer]
  rfl

lemma min_silent_chunks_eq : min_silent_chunks = 3 := by
  norm_num [min_silent_chunks, pyIntNat, min_silent_sec_after_phrase, sec_per_buffer]
  rfl

lemma recordGo_quiet_exhaust (rms : Chunk → ℚ) (maxLoud minLoud minSilent : ℕ)
    (stream : ℕ → Chunk) (button : ℕ → Bool) (t : ℚ) (n : ℕ)
    (hb : ∀ i, button i = false)
    (hq : ∀ i, n ≤ i → ¬ (rms (stream i) > t * (11 / 10)))
    (hn : n ≤ maxLoud)
    (hno : ∀ j2, 1 ≤ j2 → j2 ≤ maxLoud - n → ¬ (minLoud < n ∧ minSilent < j2)) :
    recordGo rms maxLoud minLoud minSilent stream button (maxLoud - n)
        (recStateAt t stream n n 0)
      = recStateAt t stream (n + (maxLoud - n)) n (maxLoud - n) := by
  rw [recordGo_quiet_run rms maxLoud minLoud minSilent stream button t n hb hq
    (maxLoud - n) (maxLoud - n) (by omega) le_rfl hno, Nat.sub_self]
  rfl

lemma recordGo_completes (rms : Chunk → ℚ) (maxLoud minLoud minSilent : ℕ)
    (stream : ℕ → Chunk) (button : ℕ → Bool) (t : ℚ) (n : ℕ)
    (hb : ∀ i, button i = false)
    (hq : ∀ i, n ≤ i → ¬ (rms (stream i) > t * (11 / 10)))
    (hml : minLoud < n) (hroom : n + minSilent + 1 ≤ maxLoud) :
    ∀ fuel, minSilent + 1 ≤ fuel →
      recordGo rms maxLoud minLoud minSilent stream button fuel (recStateAt t stream n n 0)
        = { recStateAt t stream (n + minSilent + 1) n (minSilent + 1) with
              phraseComplete := true } := by
  intro fuel hf
  rw [recordGo_quiet_run rms maxLoud minLoud minSilent stream button t n hb hq
    minSilent fuel (by omega) (by omega)
    (fun j2 h1 h2 => by rintro ⟨h3, h4⟩; omega)]
  have hchunk := recordChunk_quiet rms maxLoud stream t (n + minSilent) n minSilent
    (by omega) (hq (n + minSilent) (by omega))
  have hfs : fuel - minSilent = (fuel - (minSilent + 1)) + 1 := by omega
  rw [hfs, recordGo_step_complete rms maxLoud minLoud minSilent stream button
    (fuel - (minSilent + 1)) (recStateAt t stream (n + minSilent) n minSilent)
    (by simp only [recStateAt]; omega)
    (by rw [hchunk]; simp only [recStateAt]; omega)
    (by rw [hchunk]; simp only [recStateAt]; exact ⟨hml, by omega⟩), hchunk]

/-- The phrase-recording loop on a stream whose first n chunks are loud and
whose remaining chunks are quiet (against the fixed threshold scaled by 1.1)
reduces to one of two explicit final states. -/
lemma record_phrase_shape (rms : Chunk → ℚ) (stream : ℕ → Chunk) (button : ℕ → Bool)
    (t : ℚ) (n maxLoud minLoud minSilent : ℕ)
    (hb : ∀ i, button i = false)
    (hl : ∀ i, i < n → rms (stream i) > t * (11 / 10))
    (hn : n ≤ maxLoud) :
    record_phrase rms t maxLoud minLoud minSilent stream button
      = recordGo rms maxLoud minLoud minSilent stream button (maxLoud - n)
          (recStateAt t stream n n 0) := by
  rw [record_phrase_init]
  exact recordGo_loud_run rms maxLoud minLoud minSilent stream button t hb n maxLoud
    hl hn hn

/-- Claim C1 (amended): for a stream of n loud chunks followed by quiet
chunks, with n + m strictly below the hard-timeout chunk count, the
_record_phrase loop completes the phrase within the first n + m chunks iff
n > min_loud_chunks and m > min_silent_chunks (strict comparisons, as in the
source), and on completion the loop stops after exactly
n + min_silent_chunks + 1 chunks, the returned buffer being the
concatenation of precisely those chunks in arrival order. -/
theorem c1_amended_segmentation (rms : Chunk → ℚ) (stream : ℕ → Chunk)
    (button : ℕ → Bool) (t : ℚ) (n m maxLoud : ℕ)
    (hb : ∀ i, button i = false)
    (hl : ∀ i, i < n → rms (stream i) > t * (11 / 10))
    (hq : ∀ i, n ≤ i → ¬ (rms (stream i) > t * (11 / 10)))
    (hnm : n + m < maxLoud) :
    (((record_phrase rms t maxLoud min_loud_chunks min_silent_chunks stream
          button).phraseComplete = true ∧
        (record_phrase rms t maxLoud min_loud_chunks min_silent_chunks stream
          button).numChunks ≤ n + m) ↔
      (min_loud_chunks < n ∧ min_silent_chunks < m)) ∧
    ((min_loud_chunks < n ∧ min_silent_chunks < m) →
      (record_phrase rms t maxLoud min_loud_chunks min_silent_chunks stream
          button).numChunks = n + min_silent_chunks + 1 ∧
      (record_phrase rms t maxLoud min_loud_chunks min_silent_chunks stream
          button).allChunks.flatten
        = ((List.range (n + min_silent_chunks + 1)).map stream).flatten) := by
  have hshape := record_phrase_shape rms stream button t n maxLoud min_loud_chunks
    min_silent_chunks hb hl (by omega)
  by_cases hml : min_loud_chunks < n
  · by_cases hroom : n + min_silent_chunks + 1 ≤ maxLoud
    · have hfin : record_phrase rms t maxLoud min_loud_chunks min_silent_chunks stream
          button = { recStateAt t stream (n + min_silent_chunks + 1) n
            (min_silent_chunks + 1) with phraseComplete := true } := by
        rw [hshape]
        exact recordGo_completes rms maxLoud min_loud_chunks min_silent_chunks stream
          button t n hb hq hml hroom (maxLoud - n) (by omega)
      rw [hfin]
      simp only [recStateAt]
      constructor
      · constructor
        · rintro ⟨_, hle⟩
          exact ⟨hml, by omega⟩
        · rintro ⟨_, hm2⟩
          exact ⟨by trivial, by omega⟩
      · intro _
        exact ⟨by trivial, by trivial⟩
    · have hfin : record_phrase rms t maxLoud min_loud_chunks min_silent_chunks stream
          button = recStateAt t stream (n + (maxLoud - n)) n (maxLoud - n) := by
        rw [hshape]
        exact recordGo_quiet_exhaust rms maxLoud min_loud_chunks min_silent_chunks
          stream button t n hb hq (by omega)
          (fun j2 h1 h2 => by rintro ⟨h3, h4⟩; omega)
      rw [hfin]
      simp only [recStateAt]
      constructor
      · constructor
        · rintro ⟨hfalse, _⟩
          exact absurd hfalse (by simp)
        · rintro ⟨_, hm2⟩
          exact absurd hm2 (by omega)
      · rintro ⟨_, hm2⟩
        exact absurd hm2 (by omega)
  · have hfin : record_phrase rms t maxLoud min_loud_chunks min_silent_chunks stream
        button = recStateAt t stream (n + (maxLoud - n)) n (maxLoud - n) := by
      rw [hshape]
      exact recordGo_quiet_exhaust rms maxLoud min_loud_chunks min_silent_chunks
        stream button t n hb hq (by omega)
        (fun j2 h1 h2 => by rintro ⟨h3, h4⟩; omega)
    rw [hfin]
    simp only [recStateAt]
    constructor
    · constructor
      · rintro ⟨hfalse, _⟩
        exact absurd hfalse (by simp)
      · rintro ⟨hn2, _⟩
        exact absurd hn2 hml
    · rintro ⟨hn2, _⟩
      exact absurd hn2 hml

/-- Counterexample to claim C1 as stated: with n = min_loud_chunks = 7 loud
chunks followed by m = min_silent_chunks = 3 quiet chunks (n + m below the
hard timeout of 11 chunks), the claimed condition n ≥ min_loud_chunks and
m ≥ min_silent_chunks holds, yet the loop never fires the completion break
(the source requires strictly more than min_loud_chunks loud chunks). -/
theorem c1_counterexample :
    7 ≥ min_loud_chunks ∧ 3 ≥ min_silent_chunks ∧ 7 + 3 < 11 ∧
    (record_phrase (fun c => if c.length = 0 then 0 else 100) 10 11 min_loud_chunks
        min_silent_chunks (fun i => if i < 7 then [1] else [])
        (fun _ => false)).phraseComplete = false := by
  have hl : ∀ i, i < 7 →
      (fun c : Chunk => if c.length = 0 then (0 : ℚ) else 100)
        ((fun i => if i < 7 then ([1] : Chunk) else []) i) > 10 * (11 / 10) := by
    intro i hi
    simp only [hi, if_true]
    norm_num
  have hq : ∀ i, 7 ≤ i →
      ¬ ((fun c : Chunk => if c.length = 0 then (0 : ℚ) else 100)
        ((fun i => if i < 7 then ([1] : Chunk) else []) i) > 10 * (11 / 10)) := by
    intro i hi
    simp only [Nat.not_lt.mpr hi, if_false]
    norm_num
  have hshape := record_phrase_shape (fun c => if c.length = 0 then (0 : ℚ) else 100)
    (fun i => if i < 7 then ([1] : Chunk) else []) (fun _ => false) 10 7 11
    min_loud_chunks min_silent_chunks (fun _ => rfl) hl (by omega)
  rw [hshape, recordGo_quiet_exhaust (fun c => if c.length = 0 then (0 : ℚ) else 100)
    11 min_loud_chunks min_silent_chunks (fun i => if i < 7 then ([1] : Chunk) else [])
    (fun _ => false) 10 7 (fun _ => rfl) hq (by omega)
    (fun j2 h1 h2 => by rw [min_loud_chunks_eq]; rintro ⟨h3, h4⟩; omega)]
  exact ⟨by rw [min_loud_chunks_eq], by rw [min_silent_chunks_eq], by omega, rfl⟩

/-- Witness for the amended C1 at a concrete input: 8 loud chunks then 4
quiet chunks with a 13-chunk hard timeout; completion fires at chunk 12. -/
theorem c1_amended_segmentation_witness :
    (((record_phrase (fun c => if c.length = 0 then 0 else 100) 10 13 min_loud_chunks
          min_silent_chunks (fun i => if i < 8 then [1] else [])
          (fun _ => false)).phraseComplete = true ∧
        (record_phrase (fun c => if c.length = 0 then 0 else 100) 10 13 min_loud_chunks
          min_silent_chunks (fun i => if i < 8 then [1] else [])
          (fun _ => false)).numChunks ≤ 8 + 4) ↔
      (min_loud_chunks < 8 ∧ min_silent_chunks < 4)) ∧
    ((min_loud_chunks < 8 ∧ min_silent_chunks < 4) →
      (record_phrase (fun c => if c.length = 0 then 0 else 100) 10 13 min_loud_chunks
          min_silent_chunks (fun i => if i < 8 then [1] else [])
          (fun _ => false)).numChunks = 8 + min_silent_chunks + 1 ∧
      (record_phrase (fun c => if c.length = 0 then 0 else 100) 10 13 min_loud_chunks
          min_silent_chunks (fun i => if i < 8 then [1] else [])
          (fun _ => false)).allChunks.flatten
        = ((List.range (8 + min_silent_chunks + 1)).map
            (fun i => if i < 8 then [1] else [])).flatten) :=
  c1_amended_segmentation (fun c => if c.length = 0 then 0 else 100)
    (fun i => if i < 8 then [1] else []) (fun _ => false) 10 8 4 13
    (fun _ => rfl)
    (by intro i hi; simp only [hi, if_true]; norm_num)
    (by intro i hi; simp only [Nat.not_lt.mpr hi, if_false]; norm_num)
    (by omega)

/-- Claim C3 (amended): while the muted flag is set, MutableStream.read
returns immediately (on its first loop iteration) with the muted
placeholder, a zero-filled buffer of SAMPLE_WIDTH bytes, never real
samples; it does not loop, sleep or block. -/
theorem c3_amended_muted_read (mutedAt : ℕ → Bool) (availAt : ℕ → ℕ)
    (dataAt : ℕ → ℕ → List ℕ) (sampleWidth size fuel : ℕ)
    (hm : ∀ i, mutedAt i = true) (hs : 0 < size) (hf : 0 < fuel) :
    mutableStreamRead mutedAt availAt dataAt sampleWidth size fuel
      = some (mutedBuffer sampleWidth) := by
  obtain ⟨f, rfl⟩ : ∃ f, fuel = f + 1 := ⟨fuel - 1, by omega⟩
  unfold mutableStreamRead
  rw [streamReadGo]
  dsimp only
  rw [if_pos hs, if_pos (hm 0)]

/-- Witness for the amended C3 at a concrete input: a 4096-byte read from a
muted 2-byte-sample stream. -/
theorem c3_amended_muted_read_witness :
    mutableStreamRead (fun _ => true) (fun _ => 0) (fun _ _ => []) 2 4096 1
      = some (mutedBuffer 2) :=
  c3_amended_muted_read (fun _ => true) (fun _ => 0) (fun _ _ => []) 2 4096 1
    (fun _ => rfl) (by omega) (by omega)

/-- Counterexample to claim C3 as stated: a muted read of 2048 bytes from a
stream with 2-byte samples returns the 2-byte muted placeholder, not a
zero-filled buffer of the requested size 2048 (mic.py line 85 returns
self.muted_buffer, whose length is SAMPLE_WIDTH). -/
theorem c3_counterexample :
    mutableStreamRead (fun _ => true) (fun _ => 0) (fun _ _ => []) 2 2048 1
      = some (mutedBuffer 2) ∧ (mutedBuffer 2).length ≠ 2048 := by
  constructor
  · rfl
  · simp [mutedBuffer]

lemma hotwordResults_false_true : ∀ (ops : List HotwordOp) (m : ℕ),
    (hotwordResults ops false).get? m = some (some true) →
    ∃ k, k < m ∧ ops.get? k = some HotwordOp.activate
  | [], m, h => by simp [hotwordResults] at h
  | HotwordOp.activate :: rest, m, h => by
      match m with
      | 0 => simp [hotwordResults] at h
      | m + 1 => exact ⟨0, Nat.succ_pos m, rfl⟩
  | HotwordOp.poll :: rest, m, h => by
      match m with
      | 0 => simp [hotwordResults, found_wake_word] at h
      | m + 1 =>
          have h2 : (hotwordResults rest false).get? m = some (some true) := by
            simpa [hotwordResults, found_wake_word] using h
          obtain ⟨k, hk, hop⟩ := hotwordResults_false_true rest m h2
          exact ⟨k + 1, by omega, by simpa using hop⟩

/-- Claim C9: found_wake_word is edge-triggered: whenever two polls both
return true, an activation of the detection flag lies strictly between
them; equivalently, after a poll returns true every later poll returns
false until the engine activates the flag again. -/
theorem c9_edge_triggered : ∀ (ops : List HotwordOp) (h0 : Bool) (i j : ℕ),
    i < j →
    (hotwordResults ops h0).get? i = some (some true) →
    (hotwordResults ops h0).get? j = some (some true) →
    ∃ k, i < k ∧ k < j ∧ ops.get? k = some HotwordOp.activate
  | [], _, i, j, _, hi, _ => by simp [hotwordResults] at hi
  | HotwordOp.activate :: rest, h0, i, j, hij, hi, hj => by
      match i, j with
      | _, 0 => exact absurd hij (by omega)
      | 0, j2 + 1 => simp [hotwordResults] at hi
      | i2 + 1, j2 + 1 =>
          obtain ⟨k, hk1, hk2, hop⟩ := c9_edge_triggered rest true i2 j2 (by omega)
            (by simpa [hotwordResults] using hi) (by simpa [hotwordResults] using hj)
          exact ⟨k + 1, by omega, by omega, by simpa using hop⟩
  | HotwordOp.poll :: rest, h0, i, j, hij, hi, hj => by
      match i, j with
      | _, 0 => exact absurd hij (by omega)
      | 0, j2 + 1 =>
          cases h0 with
          | false => simp [hotwordResults, found_wake_word] at hi
          | true =>
              have h2 : (hotwordResults rest false).get? j2 = some (some true) := by
                simpa [hotwordResults, found_wake_word] using hj
              obtain ⟨k, hk, hop⟩ := hotwordResults_false_true rest j2 h2
              exact ⟨k + 1, by omega, by omega, by simpa using hop⟩
      | i2 + 1, j2 + 1 =>
          obtain ⟨k, hk1, hk2, hop⟩ := c9_edge_triggered rest (found_wake_word h0).snd
            i2 j2 (by omega) (by simpa [hotwordResults] using hi)
            (by simpa [hotwordResults] using hj)
          exact ⟨k + 1, by omega, by omega, by simpa using hop⟩

/-- Witness for C9 at a concrete input: polls at positions 1 and 3 both
return true, and the theorem produces the activation between them. -/
theorem c9_edge_triggered_witness :
    ∃ k, 1 < k ∧ k < 3 ∧
      ([HotwordOp.activate, HotwordOp.poll, HotwordOp.activate,
          HotwordOp.poll].get? k = some HotwordOp.activate) :=
  c9_edge_triggered
    [HotwordOp.activate, HotwordOp.poll, HotwordOp.activate, HotwordOp.poll]
    false 1 3 (by omega)
    (by simp [hotwordResults, found_wake_word])
    (by simp [hotwordResults, found_wake_word])

lemma waitGo_first_trigger (found : ℕ → Bool) (rmss : ℕ → ℚ)
    (saveWW : Except String Unit) (f i : ℕ) (ws : WaitState) :
    waitGo false true found rmss false saveWW (f + 1) i ws
      = some (Except.ok (waitAdaptStep (rmss i) ws, true)) := by
  rw [waitGo]
  dsimp only
  rw [if_neg (by simp), if_pos (by simp), if_neg (by simp)]

lemma waitGo_detected (trig : Bool) (found : ℕ → Bool) (rmss : ℕ → ℚ)
    (sww : Bool) (saveWW : Except String Unit) :
    ∀ (fuel i : ℕ) (ws ws2 : WaitState) (d : Bool),
      waitGo false trig found rmss sww saveWW fuel i ws
        = some (Except.ok (ws2, d)) → d = true
  | 0, i, ws, ws2, d, h => by simp [waitGo] at h
  | fuel + 1, i, ws, ws2, d, h => by
      rw [waitGo] at h
      dsimp only at h
      rw [if_neg (by simp)] at h
      by_cases hft : (found i || trig) = true
      · rw [if_pos hft] at h
        by_cases hsw : sww = true
        · rw [if_pos hsw] at h
          cases saveWW with
          | error e => simp at h
          | ok u =>
              simp only [Option.some.injEq, Except.ok.injEq, Prod.mk.injEq] at h
              exact h.2.symm
        · rw [if_neg hsw] at h
          simp only [Option.some.injEq, Except.ok.injEq, Prod.mk.injEq] at h
          exact h.2.symm
      · rw [if_neg hft] at h
        exact waitGo_detected trig found rmss sww saveWW fuel (i + 1) _ ws2 d h

/-- Claim C8: every listen cycle that completes a recording emits the
wakeword event before that cycle's record_begin, record_begin before
record_end, and no record_end appears without a prior record_begin. -/
theorem c8_event_ordering (found : ℕ → Bool) (rmss : ℕ → ℚ) (rms : Chunk → ℚ)
    (chunks : ℕ → Chunk) (button : ℕ → Bool) (maxLoud minLoud minSilent : ℕ)
    (sww svu : Bool) (saveWW saveUtt : Except String Unit) (fuel : ℕ)
    (st st1 : ListenerState) (evts : List Event) (buf : List Int)
    (h : listen found rmss rms chunks button maxLoud minLoud minSilent sww svu
        saveWW saveUtt fuel st = some (Except.ok (st1, evts, some buf))) :
    (∃ i j k, i < j ∧ j < k ∧ evts.get? i = some Event.wakeword ∧
      evts.get? j = some Event.record_begin ∧ evts.get? k = some Event.record_end) ∧
    ∀ k2, evts.get? k2 = some Event.record_end →
      ∃ j2, j2 < k2 ∧ evts.get? j2 = some Event.record_begin := by
  unfold listen at h
  cases hw : waitGo st.stopSignaled st.listenTriggered found rmss sww saveWW fuel 0
      ⟨st.dynamicEnergyThreshold, 0⟩ with
  | none => rw [hw] at h; exact absurd h (by simp)
  | some r =>
    rw [hw] at h
    cases r with
    | error e => exact absurd h (by simp)
    | ok p =>
      obtain ⟨ws, d⟩ := p
      dsimp only at h
      by_cases hstop : st.stopSignaled = true
      · rw [if_pos hstop] at h
        simp at h
      · rw [if_neg hstop] at h
        have hsf : st.stopSignaled = false := by
          cases hfact : st.stopSignaled
          · rfl
          · exact absurd hfact hstop
        rw [hsf] at hw
        have hd : d = true := waitGo_detected st.listenTriggered found rmss sww saveWW
          fuel 0 _ ws d hw
        subst hd
        have hevts : evts = [Event.wakeword, Event.record_begin, Event.record_end] := by
          by_cases hsv : svu = true
          · rw [if_pos hsv] at h
            cases saveUtt with
            | error e => simp at h
            | ok u =>
                simp only [if_true, List.cons_append, List.nil_append,
                  Option.some.injEq, Except.ok.injEq, Prod.mk.injEq] at h
                exact h.2.1.symm
          · rw [if_neg hsv] at h
            simp only [if_true, List.cons_append, List.nil_append,
              Option.some.injEq, Except.ok.injEq, Prod.mk.injEq] at h
            exact h.2.1.symm
        subst hevts
        refine ⟨⟨0, 1, 2, by omega, by omega, rfl, rfl, rfl⟩, ?_⟩
        intro k2 hk2
        match k2 with
        | 0 => exact absurd hk2 (by simp)
        | 1 => exact absurd hk2 (by simp)
        | 2 => exact ⟨1, by omega, rfl⟩
        | k + 3 => exact absurd hk2 (by simp)

lemma record_phrase_tiny :
    record_phrase (fun _ => (0 : ℚ)) 13 1 7 3 (fun _ => ([] : Chunk)) (fun _ => false)
      = ⟨13, 1, 0, 1, [[]], false⟩ := by
  norm_num [record_phrase, recordGo, recordChunk, dequeAppend]

/-- One concrete listen cycle entered through the external trigger flag
(stop clear, trigger set, engine never detects): the wait phase returns at
the first chunk, one quiet chunk is recorded (hard timeout 1), and the
outcome depends only on the utterance-persistence arguments. -/
lemma listen_concrete (svu : Bool) (saveUtt : Except String Unit) :
    listen (fun _ => false) (fun _ => (0 : ℚ)) (fun _ => (0 : ℚ)) (fun _ => ([] : Chunk))
        (fun _ => false) 1 7 3 false svu (Except.ok ()) saveUtt 1 ⟨13, false, true⟩
      = (if svu then
          match saveUtt with
          | Except.error e => some (Except.error e)
          | Except.ok _ => some (Except.ok (⟨13, false, true⟩,
              [Event.wakeword, Event.record_begin, Event.record_end],
              some ([] : List Int)))
         else some (Except.ok (⟨13, false, true⟩,
              [Event.wakeword, Event.record_begin, Event.record_end],
              some ([] : List Int)))) := by
  have h1 := waitGo_first_trigger (fun _ => false) (fun _ => (0 : ℚ)) (Except.ok ()) 0 0
    ⟨13, 0⟩
  norm_num [waitAdaptStep] at h1
  unfold listen
  dsimp only
  rw [h1]
  dsimp only
  rw [record_phrase_tiny]
  simp

/-- Claim C6 (code bug in recognizer.py): a listen cycle entered through the
external trigger flag completes, but listen never clears
self._listen_triggered: the returned state still has the flag set, and the
next waiting-phase pass (stop clear, no wake-word detection, the leftover
flag as trig) reports a detection on its very first chunk, so the loop
auto-transitions to recording without any new trigger. -/
theorem c6_trigger_flag_not_cleared :
    listen (fun _ => false) (fun _ => (0 : ℚ)) (fun _ => (0 : ℚ)) (fun _ => ([] : Chunk))
        (fun _ => false) 1 7 3 false false (Except.ok ()) (Except.ok ()) 1
        ⟨13, false, true⟩
      = some (Except.ok (⟨13, false, true⟩, [Event.wakeword, Event.record_begin,
          Event.record_end], some ([] : List Int))) ∧
    (⟨13, false, true⟩ : ListenerState).listenTriggered = true ∧
    waitGo false true (fun _ => false) (fun _ => (0 : ℚ)) false (Except.ok ()) 1 0 ⟨13, 0⟩
      = some (Except.ok (⟨13, 1⟩, true)) := by
  refine ⟨?_, rfl, ?_⟩
  · rw [listen_concrete false (Except.ok ())]
    simp
  · have h1 := waitGo_first_trigger (fun _ => false) (fun _ => (0 : ℚ)) (Except.ok ())
      0 0 ⟨13, 0⟩
    norm_num [waitAdaptStep] at h1
    exact h1

lemma waitGo_first_trigger_save_error (e : String) (found : ℕ → Bool) (rmss : ℕ → ℚ)
    (f i : ℕ) (ws : WaitState) :
    waitGo false true found rmss true (Except.error e) (f + 1) i ws
      = some (Except.error e) := by
  rw [waitGo]
  dsimp only
  rw [if_neg (by simp), if_pos (by simp), if_pos rfl]

/-- Claim C7 (amended): a persistence failure is not contained by the
listening loop: with utterance saving enabled, a failing utterance write
(recognizer.py lines 176-180, no exception handler) ends the listen call
with the error instead of the recorded utterance; and with wake-word saving
enabled, a failing wake-word-buffer write (recognizer.py lines 117-124, no
exception handler) likewise propagates out of the wait phase and ends the
listen call with the error. -/
theorem c7_amended_save_failure_propagates (e : String) (found : ℕ → Bool)
    (rmss : ℕ → ℚ) (rms : Chunk → ℚ) (chunks : ℕ → Chunk) (button : ℕ → Bool)
    (maxLoud minLoud minSilent : ℕ) (svu : Bool) (saveWW saveUtt : Except String Unit)
    (f : ℕ) (st : ListenerState) (hstop : st.stopSignaled = false)
    (htrig : st.listenTriggered = true) :
    (listen found rmss rms chunks button maxLoud minLoud minSilent false true saveWW
        (Except.error e) (f + 1) st = some (Except.error e)) ∧
    (listen found rmss rms chunks button maxLoud minLoud minSilent true svu
        (Except.error e) saveUtt (f + 1) st = some (Except.error e)) := by
  constructor
  · unfold listen
    rw [hstop, htrig, waitGo_first_trigger]
    dsimp only
    simp [hstop]
  · unfold listen
    rw [hstop, htrig, waitGo_first_trigger_save_error]

/-- Witness for the amended C7 at a concrete input: both the failing
utterance save and the failing wake-word save end the call with the error. -/
theorem c7_amended_save_failure_propagates_witness :
    (listen (fun _ => false) (fun _ => (0 : ℚ)) (fun _ => (0 : ℚ)) (fun _ => ([] : Chunk))
        (fun _ => false) 1 7 3 false true (Except.ok ()) (Except.error "io") 1
        ⟨13, false, true⟩ = some (Except.error "io")) ∧
    (listen (fun _ => false) (fun _ => (0 : ℚ)) (fun _ => (0 : ℚ)) (fun _ => ([] : Chunk))
        (fun _ => false) 1 7 3 true false (Except.error "io") (Except.ok ()) 1
        ⟨13, false, true⟩ = some (Except.error "io")) :=
  c7_amended_save_failure_propagates "io" (fun _ => false) (fun _ => (0 : ℚ))
    (fun _ => (0 : ℚ)) (fun _ => ([] : Chunk)) (fun _ => false) 1 7 3 false
    (Except.ok ()) (Except.ok ()) 0 ⟨13, false, true⟩ rfl rfl

/-- Counterexample to claim C7 as stated: with a failing utterance save the
listen call ends in the error, while the identical run with a succeeding
save returns the utterance — the failure is not contained, and the run does
not continue as the non-failing one. -/
theorem c7_counterexample :
    listen (fun _ => false) (fun _ => (0 : ℚ)) (fun _ => (0 : ℚ)) (fun _ => ([] : Chunk))
        (fun _ => false) 1 7 3 false true (Except.ok ()) (Except.error "disk full") 1
        ⟨13, false, true⟩ = some (Except.error "disk full") ∧
    listen (fun _ => false) (fun _ => (0 : ℚ)) (fun _ => (0 : ℚ)) (fun _ => ([] : Chunk))
        (fun _ => false) 1 7 3 false true (Except.ok ()) (Except.ok ()) 1
        ⟨13, false, true⟩
      = some (Except.ok (⟨13, false, true⟩, [Event.wakeword, Event.record_begin,
          Event.record_end], some ([] : List Int))) := by
  constructor
  · rw [listen_concrete true (Except.error "disk full")]
    simp
  · rw [listen_concrete true (Except.ok ())]
    simp

/-- Witness for C8 at a concrete input: a completed triggered cycle whose
event trace is wakeword, record_begin, record_end. -/
theorem c8_event_ordering_witness :
    (∃ i j k, i < j ∧ j < k ∧
      [Event.wakeword, Event.record_begin, Event.record_end].get? i
          = some Event.wakeword ∧
      [Event.wakeword, Event.record_begin, Event.record_end].get? j
          = some Event.record_begin ∧
      [Event.wakeword, Event.record_begin, Event.record_end].get? k
          = some Event.record_end) ∧
    ∀ k2, [Event.wakeword, Event.record_begin, Event.record_end].get? k2
        = some Event.record_end →
      ∃ j2, j2 < k2 ∧ [Event.wakeword, Event.record_begin, Event.record_end].get? j2
        = some Event.record_begin :=
  c8_event_ordering (fun _ => false) (fun _ => (0 : ℚ)) (fun _ => (0 : ℚ))
    (fun _ => ([] : Chunk)) (fun _ => false) 1 7 3 false false (Except.ok ())
    (Except.ok ()) 1 ⟨13, false, true⟩ ⟨13, false, true⟩
    [Event.wakeword, Event.record_begin, Event.record_end] []
    (by rw [listen_concrete false (Except.ok ())]; simp)

end Mycroft
